import Mathlib

/-!
Verification of the InstaFacts data layer (src/App.tsx).

The definitions below are a shallow embedding of the data-layer code:
the Supabase-backed layer (`createSupabaseLayer`), the in-browser local
layer (`createLocalLayer`), the reply-tree builder inside `listPosts`,
and the `NewPost` submit guard.  JavaScript `Set`s are embedded as
duplicate-free `List String` values in insertion order, JS string
operations are embedded as operations on `List Char`, and the hosted
backend's query/constraint semantics (`order`, `limit`, `maybeSingle`,
the username uniqueness constraint) are embedded as pure functions over
row lists.  Timestamps are `Nat` (milliseconds since epoch, the result
of `Date.getTime`).
-/

/-- The JS regex class `\s` (the ECMAScript WhiteSpace and
LineTerminator productions): tab, line feed, vertical tab, form feed,
carriage return, space, no-break space, Ogham space mark, the Zs spaces
U+2000-U+200A, line separator, paragraph separator, narrow no-break
space, medium mathematical space, ideographic space and the byte-order
mark. -/
def isWS (c : Char) : Bool :=
  c == ' ' || c == '\t' || c == '\n' || c == '\r' || c == '\x0b' || c == '\x0c'
  || c == '\u00a0' || c == '\u1680'
  || c == '\u2000' || c == '\u2001' || c == '\u2002' || c == '\u2003'
  || c == '\u2004' || c == '\u2005' || c == '\u2006' || c == '\u2007'
  || c == '\u2008' || c == '\u2009' || c == '\u200a'
  || c == '\u2028' || c == '\u2029' || c == '\u202f' || c == '\u205f'
  || c == '\u3000' || c == '\ufeff'

/-- JS `String.prototype.trim`, embedded over the character list. -/
def jsTrim (s : String) : String :=
  String.mk (((s.data.dropWhile isWS).reverse.dropWhile isWS).reverse)

/-- JS `a || b` for an optional string `a` (absent and `""` are falsy). -/
def jsOr (a : Option String) (b : String) : String :=
  match a with
  | some s => if s = "" then b else s
  | none => b

/-- Association-list lookup (JS `Map.get`). -/
def lookupAssoc {α : Type} (m : List (String × α)) (k : String) : Option α :=
  (m.find? (fun p => p.1 == k)).map (·.2)

/-- JS `Map.set`: replace the value in place if the key exists, else append.
Keys keep their first-insertion order, values are the last ones set. -/
def setAssoc {α : Type} (m : List (String × α)) (k : String) (v : α) : List (String × α) :=
  if m.any (fun p => p.1 == k) then
    m.map (fun p => if p.1 == k then (k, v) else p)
  else
    m ++ [(k, v)]

/-- JS `Map.delete`. -/
def deleteAssoc {α : Type} (m : List (String × α)) (k : String) : List (String × α) :=
  m.filter (fun p => !(p.1 == k))

/-- Insert `x` into `l` before the first element `y` with `¬ le x y`
(one step of insertion sort). -/
def insertBy {α : Type} (le : α → α → Bool) (x : α) : List α → List α
  | [] => [x]
  | y :: ys => if le x y then x :: y :: ys else y :: insertBy le x ys

/-- Stable insertion sort; embeds the backend's `order(...)` clause. -/
def sortBy {α : Type} (le : α → α → Bool) (l : List α) : List α :=
  l.foldr (insertBy le) []

/-! ## Reactions (`createSupabaseLayer.toggleReactPost`, src/App.tsx lines 176-185) -/

/-- JS `Set.add`: append if absent (insertion order preserved). -/
def jsSetAdd (s : List String) (x : String) : List String :=
  if x ∈ s then s else s ++ [x]

/-- JS `Set.delete`. -/
def jsSetDelete (s : List String) (x : String) : List String :=
  s.filter (fun y => !(y == x))

/-- JS `new Set(arr)`: deduplicate keeping first occurrences. -/
def jsSetOfArray (l : List String) : List String :=
  l.foldl jsSetAdd []

/-- The reaction type argument of `toggleReactPost`. -/
inductive ReactType | up | down
deriving DecidableEq

/-- The two reaction-set columns of a post row (`likes_up`, `likes_down`). -/
structure Reactions where
  likesUp : List String
  likesDown : List String
deriving DecidableEq

/-- `createSupabaseLayer.toggleReactPost`, acting on the row it read:
build sets from the stored arrays, toggle the caller's membership with
mutual exclusion, and write the resulting arrays back. -/
def toggleReactPost (userId : String) (ty : ReactType) (r : Reactions) : Reactions :=
  let up := jsSetOfArray r.likesUp
  let down := jsSetOfArray r.likesDown
  match ty with
  | .up =>
    if userId ∈ up then ⟨jsSetDelete up userId, down⟩
    else ⟨jsSetAdd up userId, jsSetDelete down userId⟩
  | .down =>
    if userId ∈ down then ⟨up, jsSetDelete down userId⟩
    else ⟨jsSetDelete up userId, jsSetAdd down userId⟩

/-! ## Comment rows and the reply-tree builder
(`createSupabaseLayer.listPosts`, src/App.tsx lines 92-123, and
`createSupabaseLayer.addReply`, lines 158-167) -/

/-- A raw row of the `comments` table as returned by the backend query. -/
structure CRow where
  id : String
  post_id : String
  user_id : String
  content : String
  created_at : Nat
  likes_up : List String
  likes_down : List String
  edited : Bool
  parent_id : Option String
deriving DecidableEq

/-- A decoded comment row: the reply marker has been stripped from the
content and merged with the `parent_id` column into `parentId`. -/
structure DRow where
  id : String
  postId : String
  userId : String
  content : String
  createdAt : Nat
  likesUp : List String
  likesDown : List String
  edited : Bool
  parentId : Option String
deriving DecidableEq

/-- The literal characters of the reply marker opener. -/
def replyTagChars : List Char := "[reply:".data

/-- The regex `^\[reply:([^\]]+)\]\s*` on a character list: on success
returns the captured parent id and the remainder with the marker and the
following whitespace run removed. -/
def parseReplyTag (cs : List Char) : Option (List Char × List Char) :=
  if cs.take 7 = replyTagChars then
    let rest := cs.drop 7
    let cid := rest.takeWhile (fun c => !(c == ']'))
    match rest.drop cid.length with
    | ']' :: tail => if cid.isEmpty then none else some (cid, tail.dropWhile isWS)
    | _ => none
  else none

/-- Lines 102-106 of `listPosts`: the parent reference is the (truthy)
`parent_id` column, else the regex capture; the content has a matching
marker stripped either way. -/
def decodeCommentRow (row : CRow) : DRow :=
  let m := parseReplyTag row.content.data
  let pid : Option String :=
    match row.parent_id with
    | some p => if p = "" then (m.map (fun q => String.mk q.1)) else some p
    | none => m.map (fun q => String.mk q.1)
  let content : String :=
    match m with
    | some q => String.mk q.2
    | none => row.content
  { id := row.id, postId := row.post_id, userId := row.user_id,
    content := content, createdAt := row.created_at,
    likesUp := row.likes_up, likesDown := row.likes_down,
    edited := row.edited, parentId := pid }

/-- The `byId` map of `listPosts` (a JS `Map` keyed by row id), built by
successive `Map.set` calls. -/
def byIdList (rows : List DRow) : List (String × DRow) :=
  rows.foldl (fun m r => setAssoc m r.id r) []

/-- The rows in the order `byId.forEach` visits them: one row per
distinct id, keys in first-insertion order, values the last row set for
each id.  Equal to `rows` whenever the ids are distinct. -/
def effRows (rows : List DRow) : List DRow :=
  (byIdList rows).map (·.2)

/-- Whether a row's parent reference resolves in the batch
(`c.parentId && byId.has(c.parentId)`). -/
def resolvesParent (rows : List DRow) (r : DRow) : Bool :=
  match r.parentId with
  | some p => rows.any (fun x => x.id == p)
  | none => false

/-- The reply list accumulated on the node with id `cid`: every visited
row whose parent reference is `cid` is pushed onto that node's
`replies`. -/
def repliesIn (rows : List DRow) (cid : String) : List DRow :=
  rows.filter (fun r => r.parentId == some cid)

/-- The top-level comment list accumulated for post `pid`: every visited
row whose parent reference is absent or does not resolve is pushed onto
`byPost`. -/
def topIn (rows : List DRow) (pid : String) : List DRow :=
  rows.filter (fun r => !(resolvesParent rows r) && r.postId == pid)

/-- The comment/reply node shape of the UI model. -/
structure CommentNode where
  id : String
  userId : String
  content : String
  createdAt : Nat
  replies : List CommentNode
  likesUp : List String
  likesDown : List String
  edited : Bool

/-- Materialise the node for row `r` with the replies accumulated by the
builder, to depth `fuel` (the builder itself terminates on any input; on
a parent-acyclic batch, `fuel = rows.length` reaches every node). -/
def buildNode (rows : List DRow) : Nat → DRow → CommentNode
  | 0, r =>
    { id := r.id, userId := r.userId, content := r.content,
      createdAt := r.createdAt, replies := [],
      likesUp := r.likesUp, likesDown := r.likesDown, edited := r.edited }
  | fuel + 1, r =>
    { id := r.id, userId := r.userId, content := r.content,
      createdAt := r.createdAt,
      replies := (repliesIn rows r.id).map (buildNode rows fuel),
      likesUp := r.likesUp, likesDown := r.likesDown, edited := r.edited }

/-- The comment tree `listPosts` assembles for post `pid` from the
batch of decoded rows. -/
def commentsForPost (rows : List DRow) (pid : String) : List CommentNode :=
  let e := effRows rows
  (topIn e pid).map (buildNode e e.length)

/-- A raw row of the `posts` table. -/
structure PostRow where
  id : String
  user_id : String
  caption : String
  created_at : Nat
  media_urls : List String
  media_types : List String
  likes_up : List String
  likes_down : List String
  edited : Bool
deriving DecidableEq

/-- The post shape of the UI model. -/
structure PostNode where
  id : String
  userId : String
  caption : String
  createdAt : Nat
  media_urls : List String
  mediaTypes : List String
  comments : List CommentNode
  likesUp : List String
  likesDown : List String
  edited : Bool

/-- `order('created_at', descending)` comparison for the posts query. -/
def descByCreated (a b : PostRow) : Bool := Nat.ble b.created_at a.created_at

/-- `order('created_at', ascending)` comparison for the comments query. -/
def ascByCreated (a b : CRow) : Bool := Nat.ble a.created_at b.created_at

/-- `createSupabaseLayer.listPosts`: fetch the newest-first page of at
most 50 posts, fetch their comments ordered by ascending creation time,
decode each row, and attach the reconstructed tree to each post.  The
backend's `order`/`limit`/`in` clauses are embedded as sort, take and
filter over the row lists. -/
def supabaseListPosts (postRows : List PostRow) (commentRows : List CRow) : List PostNode :=
  let posts := (sortBy descByCreated postRows).take 50
  let postIds := posts.map (·.id)
  let crows := sortBy ascByCreated (commentRows.filter (fun c => postIds.contains c.post_id))
  let drows := effRows (crows.map decodeCommentRow)
  posts.map (fun p =>
    { id := p.id, userId := p.user_id, caption := p.caption,
      createdAt := p.created_at, media_urls := p.media_urls,
      mediaTypes := p.media_types,
      comments := (topIn drows p.id).map (buildNode drows drows.length),
      likesUp := p.likes_up, likesDown := p.likes_down, edited := p.edited })

/-- The content string `addReply` stores for a reply to `cid`. -/
def storedReplyContent (cid content : String) : String :=
  "[reply:" ++ cid ++ "] " ++ content

/-- The row `addReply` inserts on its primary path (explicit `parent_id`
column and marker-tagged content). -/
def addReplyRow (postId cid userId content : String) (rid : String) (now : Nat) : CRow :=
  { id := rid, post_id := postId, user_id := userId,
    content := storedReplyContent cid content, created_at := now,
    likes_up := [], likes_down := [], edited := false,
    parent_id := some cid }

/-- The row `addReply` inserts on its fallback path (no `parent_id`
column, marker-tagged content only). -/
def addReplyRowLegacy (postId cid userId content : String) (rid : String) (now : Nat) : CRow :=
  { id := rid, post_id := postId, user_id := userId,
    content := storedReplyContent cid content, created_at := now,
    likes_up := [], likes_down := [], edited := false,
    parent_id := none }

/-! ## `NewPost.submit` (src/App.tsx line 495) -/

/-- A browser `File` as far as the data layer inspects it. -/
structure JSFile where
  name : String
  fileType : String
deriving DecidableEq

/-- `NewPost.submit`: with no files and a blank (falsy after `trim`)
caption it returns without calling `onCreate`; otherwise it calls
`onCreate(files, caption.trim())`.  `none` means no call (and hence no
storage upload and no post-row insert) was issued. -/
def submitNewPost (files : List JSFile) (caption : String) : Option (List JSFile × String) :=
  if files.length = 0 ∧ jsTrim caption = "" then none
  else some (files, jsTrim caption)

/-! ## The local layer (`createLocalLayer`, src/App.tsx lines 200-252) -/

/-- The `currentUser` value of the local layer. -/
structure LocalUser where
  id : String
  email : Option String
deriving DecidableEq

/-- A profile record. -/
structure LocalProfile where
  id : String
  username : String
  bio : String
  email : Option String
deriving DecidableEq

/-- The mutable state captured by `createLocalLayer`. -/
structure LocalState where
  currentUser : Option LocalUser
  posts : List PostNode
  profiles : List (String × LocalProfile)

/-- `createLocalLayer.signUp`: derive the id from
`username || email || 'user_local'`, set the current session to it and
write the profile record — with no duplicate check and no failure
path. -/
def localSignUp (email : String) (username bio : Option String) (s : LocalState) : LocalState :=
  let id := jsOr username (if email = "" then "user_local" else email)
  { s with
    currentUser := some { id := id, email := some email },
    profiles := setAssoc s.profiles id
      { id := id, username := jsOr username id, bio := jsOr bio "", email := some email } }

/-- `createLocalLayer.toggleReactPost` — an empty async function body:
it reads nothing and writes nothing. -/
def localToggleReactPost (_postId : String) (_ty : ReactType) (s : LocalState) : LocalState :=
  s

/-- The state `createLocalLayer` starts from. -/
def localLayerInit : LocalState :=
  { currentUser := none, posts := [], profiles := [] }

/-- The `isAdmin` field of the local layer (src/App.tsx line 209): the
literal `true`. -/
def localIsAdmin : Bool := true

/-! ## The remote auth/profile store
(`createSupabaseLayer.signUp` line 91, `signIn` lines 80-90,
`_getProfile` lines 69-75, `updateProfile` lines 125-132) -/

/-- A row of the hosted `profiles` table (`email` is nullable). -/
structure ProfileRow where
  id : String
  username : String
  bio : String
  email : Option String
deriving DecidableEq

/-- An account held by the hosted auth service. -/
structure AuthAccount where
  id : String
  email : String
  password : String
deriving DecidableEq

/-- The hosted backend state the remote layer talks to. -/
structure RemoteState where
  accounts : List AuthAccount
  profiles : List ProfileRow
deriving DecidableEq

/-- Modelled from the spec: the hosted backend's `profiles` table
enforces a uniqueness constraint on `username` at the storage layer, and
an upsert with `onConflict: 'id'` replaces the row with the same id (or
inserts a new one).  `none` is the constraint-violation error the client
re-throws. -/
def profilesUpsert (rows : List ProfileRow) (row : ProfileRow) : Option (List ProfileRow) :=
  if rows.any (fun r => r.username == row.username && !(r.id == row.id)) then none
  else if rows.any (fun r => r.id == row.id) then
    some (rows.map (fun r => if r.id == row.id then row else r))
  else
    some (rows ++ [row])

/-- `createSupabaseLayer.signUp`: create the auth account first, then —
if a username was given — upsert the profile row keyed by the new
account id.  The result flag is `false` exactly when the profile upsert
failed and the error was re-thrown; the returned state keeps whatever
had already been written. -/
def supabaseSignUp (email : String) (username bio : Option String) (newId : String)
    (s : RemoteState) : Bool × RemoteState :=
  let s1 : RemoteState :=
    { s with accounts := s.accounts ++ [{ id := newId, email := email, password := "" }] }
  match username with
  | none => (true, s1)
  | some u =>
    if u = "" then (true, s1)
    else
      match profilesUpsert s1.profiles
          { id := newId, username := u, bio := jsOr bio "", email := some email } with
      | none => (false, s1)
      | some ps => (true, { s1 with profiles := ps })

/-- A character the JS regex `.` can match (anything but a line
terminator). -/
def notLineTerm (c : Char) : Bool :=
  !(c == '\n' || c == '\r' || c == ' ' || c == ' ')

/-- The test `/.+@.+\..+/.test(identifier)` of `signIn` (line 81): some
substring consists of one non-terminator character, an `@`, a nonempty
non-terminator run, a `.`, and one non-terminator character. -/
def isEmailShaped (s : String) : Bool :=
  let cs := s.data
  let n := cs.length
  (List.range n).any fun i =>
    (List.range n).any fun j =>
      decide (1 ≤ i) && decide (i + 2 ≤ j) && decide (j + 1 < n) &&
      (cs.getD i ' ' == '@') && (cs.getD j ' ' == '.') &&
      notLineTerm (cs.getD (i - 1) ' ') && notLineTerm (cs.getD (j + 1) ' ') &&
      ((List.range (j - i - 1)).all fun k => notLineTerm (cs.getD (i + 1 + k) ' '))

/-- The username lookup of `signIn` (lines 84-86): select `email` from
`profiles` where `username` matches, via `maybeSingle` (an error unless
at most one row matched); the result counts only when the email is
truthy, else `signIn` throws `Username not found`. -/
def resolvedEmail (s : RemoteState) (uname : String) : Option String :=
  match s.profiles.filter (fun p => p.username == uname) with
  | [p] =>
    match p.email with
    | some e => if e = "" then none else some e
    | none => none
  | _ => none

/-- `auth.signInWithPassword`: `.ok` with the account id establishes a
session; any `.error` leaves no session. -/
def authWithPassword (s : RemoteState) (email password : String) : Except String String :=
  match s.accounts.find? (fun a => a.email == email) with
  | some a => if a.password = password then .ok a.id else .error "Invalid login credentials"
  | none => .error "Invalid login credentials"

/-- `createSupabaseLayer.signIn` (lines 80-90). -/
def supabaseSignIn (s : RemoteState) (identifier password : String) : Except String String :=
  if isEmailShaped identifier then authWithPassword s identifier password
  else
    match resolvedEmail s identifier with
    | none => .error "Username not found"
    | some e => authWithPassword s e password

/-- The session-scoped profile cache of the remote layer (line 69). -/
abbrev ProfileCache : Type := List (String × ProfileRow)

/-- The `maybeSingle` select of `_getProfile`: the row whose id matches,
if exactly one does. -/
def maybeSingleById (rows : List ProfileRow) (i : String) : Option ProfileRow :=
  match rows.filter (fun p => p.id == i) with
  | [p] => some p
  | _ => none

/-- `createSupabaseLayer._getProfile` (lines 70-75): serve from the
cache when present, else query the backend and cache the row only when
one was found.  The final component records whether a backend query was
performed. -/
def getProfileCached (rows : List ProfileRow) (cache : ProfileCache) (i : String) :
    Option ProfileRow × ProfileCache × Bool :=
  match lookupAssoc cache i with
  | some v => (some v, cache, false)
  | none =>
    match maybeSingleById rows i with
    | some row => (some row, setAssoc cache i row, true)
    | none => (none, cache, true)

/-- `createSupabaseLayer.updateProfile` (lines 125-132) for the
signed-in user `u`: upsert the profile row keyed by the caller's id; on
success (and only then) delete the caller's cache entry.  The flag is
`false` when the upsert error was re-thrown. -/
def supabaseUpdateProfile (rows : List ProfileRow) (cache : ProfileCache)
    (uid uemail : String) (username : String) (bio : Option String) :
    Bool × List ProfileRow × ProfileCache :=
  match profilesUpsert rows
      { id := uid, username := username, bio := jsOr bio "", email := some uemail } with
  | none => (false, rows, cache)
  | some ps => (true, ps, deleteAssoc cache uid)

/-- `createSupabaseLayer`'s `isAdmin` (line 67):
`!!(user?.email && adminEmail && user.email.toLowerCase() === adminEmail.toLowerCase())`. -/
def supabaseIsAdmin (userEmail adminEmail : Option String) : Bool :=
  match userEmail, adminEmail with
  | some ue, some ae =>
    !(ue == "") && (!(ae == "") && String.mk (ue.data.map Char.toLower) == String.mk (ae.data.map Char.toLower))
  | _, _ => false

/-! ## Helper lemmas -/

theorem mem_jsSetAdd (s : List String) (x y : String) :
    y ∈ jsSetAdd s x ↔ y ∈ s ∨ y = x := by
  unfold jsSetAdd
  by_cases h : x ∈ s
  · simp only [if_pos h]
    constructor
    · exact fun hy => Or.inl hy
    · rintro (hy | rfl)
      · exact hy
      · exact h
  · simp [if_neg h]

theorem mem_jsSetDelete (s : List String) (x y : String) :
    y ∈ jsSetDelete s x ↔ y ∈ s ∧ y ≠ x := by
  simp [jsSetDelete]

theorem mem_jsSetOfArray_aux (l : List String) (acc : List String) (y : String) :
    y ∈ l.foldl jsSetAdd acc ↔ y ∈ acc ∨ y ∈ l := by
  induction l generalizing acc with
  | nil => simp
  | cons x xs ih =>
    simp only [List.foldl_cons, ih, mem_jsSetAdd, List.mem_cons]
    tauto

theorem mem_jsSetOfArray (l : List String) (y : String) :
    y ∈ jsSetOfArray l ↔ y ∈ l := by
  simp [jsSetOfArray, mem_jsSetOfArray_aux]

/-- C1: for every user `u` and every post row state, toggling the up
reaction twice in succession returns the post's up-reaction set to its
state before the first call (extensionally, as a set of user ids), and
after any single `toggleReactPost` call `u` is never present in both the
up-set and the down-set. -/
theorem toggleReactPost_up_pair_restores_and_exclusive (u : String) (r : Reactions) :
    (∀ x, x ∈ (toggleReactPost u .up (toggleReactPost u .up r)).likesUp ↔ x ∈ r.likesUp)
    ∧ (∀ ty : ReactType,
        ¬ (u ∈ (toggleReactPost u ty r).likesUp ∧ u ∈ (toggleReactPost u ty r).likesDown)) := by
  constructor
  · intro x
    by_cases h : u ∈ jsSetOfArray r.likesUp
    · have h1 : toggleReactPost u .up r
          = ⟨jsSetDelete (jsSetOfArray r.likesUp) u, jsSetOfArray r.likesDown⟩ := by
        simp [toggleReactPost, h]
      rw [h1]
      have h2 : ¬ u ∈ jsSetOfArray (jsSetDelete (jsSetOfArray r.likesUp) u) := by
        simp [mem_jsSetOfArray, mem_jsSetDelete]
      have hu : u ∈ r.likesUp := (mem_jsSetOfArray _ _).1 h
      simp only [toggleReactPost, if_neg h2]
      simp only [mem_jsSetAdd, mem_jsSetOfArray, mem_jsSetDelete]
      by_cases hx : x = u
      · subst hx; tauto
      · tauto
    · have h1 : toggleReactPost u .up r
          = ⟨jsSetAdd (jsSetOfArray r.likesUp) u, jsSetDelete (jsSetOfArray r.likesDown) u⟩ := by
        simp [toggleReactPost, h]
      rw [h1]
      have h2 : u ∈ jsSetOfArray (jsSetAdd (jsSetOfArray r.likesUp) u) := by
        simp [mem_jsSetOfArray, mem_jsSetAdd]
      have hu : ¬ u ∈ r.likesUp := fun hc => h ((mem_jsSetOfArray _ _).2 hc)
      simp only [toggleReactPost, if_pos h2]
      simp only [mem_jsSetDelete, mem_jsSetOfArray, mem_jsSetAdd]
      by_cases hx : x = u
      · subst hx; tauto
      · tauto
  · intro ty
    cases ty with
    | up =>
      by_cases h : u ∈ jsSetOfArray r.likesUp
      · simp [toggleReactPost, h, mem_jsSetDelete]
      · simp [toggleReactPost, h, mem_jsSetDelete]
    | down =>
      by_cases h : u ∈ jsSetOfArray r.likesDown
      · simp [toggleReactPost, h, mem_jsSetDelete]
      · simp [toggleReactPost, h, mem_jsSetDelete]

theorem jsTrim_of_all_ws (s : String) (h : ∀ c ∈ s.data, isWS c = true) :
    jsTrim s = "" := by
  have hd : s.data.dropWhile isWS = [] := List.dropWhile_eq_nil_iff.2 h
  simp [jsTrim, hd]

/-- C4: a `NewPost.submit` with an empty file list and an all-whitespace
caption returns without calling `onCreate`, so no storage upload and no
post-row insert is issued for such input. -/
theorem submitNewPost_rejects_empty (caption : String)
    (h : caption.data.all isWS = true) :
    submitNewPost [] caption = none := by
  have h' : ∀ c ∈ caption.data, isWS c = true := by
    intro c hc
    exact List.all_eq_true.1 h c hc
  have ht : jsTrim caption = "" := jsTrim_of_all_ws caption h'
  simp [submitNewPost, ht]

/-- Witness for C4 at the concrete caption `"  "`. -/
theorem submitNewPost_rejects_empty_witness :
    ("  ".data.all isWS = true) ∧ submitNewPost [] "  " = none :=
  ⟨by decide, submitNewPost_rejects_empty "  " (by decide)⟩

/-- C10: in local mode `toggleReactPost` is a no-op — for every post id,
reaction type and local-layer state, the stored state (in particular the
post list and every post's `likesUp`/`likesDown`) is unchanged. -/
theorem localToggleReactPost_noop (pid : String) (ty : ReactType) (s : LocalState) :
    localToggleReactPost pid ty s = s
    ∧ (localToggleReactPost pid ty s).posts = s.posts
    ∧ (localToggleReactPost pid ty s).posts.map PostNode.likesUp = s.posts.map PostNode.likesUp
    ∧ (localToggleReactPost pid ty s).posts.map PostNode.likesDown = s.posts.map PostNode.likesDown :=
  ⟨rfl, rfl, rfl, rfl⟩

/-- C9 counterexample: the freshly created local layer has no signed-in
user (`currentUser` is `null`), yet its `isAdmin` field is the literal
`true` — the claim requires `isAdmin` to be `false` whenever no user is
signed in, so it fails on the local data-layer instance. -/
theorem localIsAdmin_true_without_session :
    localIsAdmin = true ∧ localLayerInit.currentUser = none :=
  ⟨rfl, rfl⟩

/-- C9 amended: in the remote layer `isAdmin` holds exactly when both
the signed-in user's email and the configured admin email are present
and nonempty and equal after lowercasing (in particular it is `false`
with no admin identity configured or no user signed in); the local
layer instead hard-codes `isAdmin = true` regardless of session. -/
theorem isAdmin_characterisation :
    (∀ ue ae : Option String, supabaseIsAdmin ue ae = true ↔
      ∃ u a, ue = some u ∧ ae = some a ∧ u ≠ "" ∧ a ≠ "" ∧
        u.data.map Char.toLower = a.data.map Char.toLower)
    ∧ localIsAdmin = true := by
  constructor
  · intro ue ae
    cases ue with
    | none => simp [supabaseIsAdmin]
    | some u =>
      cases ae with
      | none => simp [supabaseIsAdmin]
      | some a =>
        simp only [supabaseIsAdmin, Bool.and_eq_true, Bool.not_eq_true',
          beq_iff_eq, beq_eq_false_iff_ne, ne_eq, Option.some.injEq,
          decide_eq_true_eq]
        constructor
        · rintro ⟨h1, h2, h3⟩
          exact ⟨u, a, rfl, rfl, h1, h2, by injection h3⟩
        · rintro ⟨u', a', rfl, rfl, h1, h2, h3⟩
          exact ⟨h1, h2, by rw [h3]⟩
  · rfl

/-- C6: for an identifier that is not email-shaped, `signIn` resolves it
to the account email via the profile lookup keyed by username and
authenticates with that email; an unresolvable username or a password
mismatch yields an error (`InvalidCredentials` condition) and no
session (no `.ok` result) — a successful sign-in can only arise from
the resolved email authenticating. -/
theorem supabaseSignIn_username_path (s : RemoteState) (identifier password : String)
    (h : isEmailShaped identifier = false) :
    (supabaseSignIn s identifier password
      = match resolvedEmail s identifier with
        | none => .error "Username not found"
        | some e => authWithPassword s e password)
    ∧ (resolvedEmail s identifier = none →
        supabaseSignIn s identifier password = .error "Username not found")
    ∧ (∀ e, resolvedEmail s identifier = some e →
        ∀ a, s.accounts.find? (fun x => x.email == e) = some a → a.password ≠ password →
          supabaseSignIn s identifier password = .error "Invalid login credentials")
    ∧ (∀ uid, supabaseSignIn s identifier password = .ok uid →
        ∃ e, resolvedEmail s identifier = some e ∧ authWithPassword s e password = .ok uid) := by
  have hmain : supabaseSignIn s identifier password
      = match resolvedEmail s identifier with
        | none => .error "Username not found"
        | some e => authWithPassword s e password := by
    simp [supabaseSignIn, h]
  refine ⟨hmain, ?_, ?_, ?_⟩
  · intro hn
    rw [hmain, hn]
  · intro e he a ha hp
    rw [hmain, he]
    simp [authWithPassword, ha, hp]
  · intro uid hok
    rw [hmain] at hok
    cases he : resolvedEmail s identifier with
    | none => rw [he] at hok; exact absurd hok (by simp)
    | some e =>
      rw [he] at hok
      exact ⟨e, rfl, hok⟩

/-- Witness for C6: a concrete store with profile `alice` resolving to
`alice@example.com`; `signIn` with the username and a wrong password
fails with the invalid-credentials error. -/
theorem supabaseSignIn_username_path_witness :
    (isEmailShaped "alice" = false) ∧
    supabaseSignIn ⟨[⟨"u1", "alice@example.com", "pw"⟩],
        [⟨"u1", "alice", "", some "alice@example.com"⟩]⟩ "alice" "bad"
      = .error "Invalid login credentials" := by
  refine ⟨by decide, ?_⟩
  exact (supabaseSignIn_username_path
      ⟨[⟨"u1", "alice@example.com", "pw"⟩], [⟨"u1", "alice", "", some "alice@example.com"⟩]⟩
      "alice" "bad" (by decide)).2.2.1 "alice@example.com" (by decide)
      ⟨"u1", "alice@example.com", "pw"⟩ (by decide) (by decide)

theorem find?_map_replace {α : Type} (m : List (String × α)) (k : String) (v : α)
    (h : m.any (fun p => p.1 == k) = true) :
    (m.map (fun p => if p.1 == k then (k, v) else p)).find? (fun p => p.1 == k)
      = some (k, v) := by
  induction m with
  | nil => simp at h
  | cons p ps ih =>
    by_cases hp : (p.1 == k) = true
    · simp [List.find?, hp]
    · have h' : ps.any (fun q => q.1 == k) = true := by
        simpa [List.any_cons, hp] using h
      have hp' : (p.1 == k) = false := by simpa using hp
      simp only [List.map_cons, List.find?, hp', if_neg, Bool.false_eq_true, if_false]
      exact ih h'

theorem find?_append_absent {α : Type} (m : List (String × α)) (k : String) (v : α)
    (h : m.any (fun p => p.1 == k) = false) :
    (m ++ [(k, v)]).find? (fun p => p.1 == k) = some (k, v) := by
  induction m with
  | nil => simp [List.find?]
  | cons p ps ih =>
    have hp : (p.1 == k) = false := by
      by_contra hc
      simp [List.any_cons, eq_true_of_ne_false hc] at h
    have h' : ps.any (fun q => q.1 == k) = false := by
      simpa [List.any_cons, hp] using h
    simp only [List.cons_append, List.find?, hp]
    exact ih h'

theorem lookupAssoc_setAssoc_self {α : Type} (m : List (String × α)) (k : String) (v : α) :
    lookupAssoc (setAssoc m k v) k = some v := by
  unfold setAssoc lookupAssoc
  by_cases h : m.any (fun p => p.1 == k) = true
  · rw [if_pos h, find?_map_replace m k v h]
    rfl
  · rw [if_neg h, find?_append_absent m k v (Bool.eq_false_iff.mpr h)]
    rfl

theorem lookupAssoc_deleteAssoc_self {α : Type} (m : List (String × α)) (k : String) :
    lookupAssoc (deleteAssoc m k) k = none := by
  have hf : (deleteAssoc m k).find? (fun p => p.1 == k) = none := by
    apply List.find?_eq_none.2
    intro p hp
    have h1 := List.of_mem_filter hp
    simpa using h1
  simp [lookupAssoc, hf]

/-- C5 counterexample: in local mode, `signUp` with the username
`alice` — already present in the profile map — does not fail at all: it
returns normally, switches the current session (previously signed out)
to `alice`, and overwrites the stored profile record.  The claim's
required `DuplicateIdentity` failure with unchanged user map and session
therefore does not hold on the code. -/
theorem localSignUp_duplicate_overwrites :
    (localSignUp "a@b.c" (some "alice") none
        ⟨none, [], [("alice", ⟨"alice", "alice", "", none⟩)]⟩).currentUser
      = some ⟨"alice", some "a@b.c"⟩
    ∧ lookupAssoc (localSignUp "a@b.c" (some "alice") none
        ⟨none, [], [("alice", ⟨"alice", "alice", "", none⟩)]⟩).profiles "alice"
      = some ⟨"alice", "alice", "", some "a@b.c"⟩ := by
  constructor
  · decide
  · decide

/-- C5 amended: `signUp` with a username already used by another
profile is not an atomic `DuplicateIdentity` failure.  In local mode
there is no uniqueness check: the call succeeds, sets the current
session to the username-derived id and overwrites that profile record.
In remote mode the username-uniqueness violation surfaces from the
profiles upsert only after the auth account was created, so the call
fails leaving the new account in place with no profile row (an
account-without-profile partial state). -/
theorem signUp_duplicate_username_behavior :
    (∀ (email : String) (bio : Option String) (s : LocalState) (uname : String),
      uname ≠ "" →
      (localSignUp email (some uname) bio s).currentUser = some ⟨uname, some email⟩
      ∧ lookupAssoc (localSignUp email (some uname) bio s).profiles uname
          = some ⟨uname, uname, jsOr bio "", some email⟩)
    ∧ (∀ (email : String) (bio : Option String) (s : RemoteState) (uname newId : String),
        uname ≠ "" →
        (∃ r ∈ s.profiles, r.username = uname ∧ r.id ≠ newId) →
        (∀ r ∈ s.profiles, r.id ≠ newId) →
        (supabaseSignUp email (some uname) bio newId s).1 = false
        ∧ (supabaseSignUp email (some uname) bio newId s).2.profiles = s.profiles
        ∧ (supabaseSignUp email (some uname) bio newId s).2.accounts.any
            (fun a => a.id == newId) = true
        ∧ (supabaseSignUp email (some uname) bio newId s).2.profiles.any
            (fun r => r.id == newId) = false) := by
  constructor
  · intro email bio s uname hu
    constructor
    · simp [localSignUp, jsOr, hu]
    · have : jsOr (some uname) (if email = "" then "user_local" else email) = uname := by
        simp [jsOr, hu]
      simp only [localSignUp, this]
      have h2 : jsOr (some uname) uname = uname := by
        simp [jsOr, hu]
      rw [h2]
      exact lookupAssoc_setAssoc_self _ _ _
  · intro email bio s uname newId hu hdup hfresh
    have hguard : s.profiles.any
        (fun r => r.username == uname && !(r.id == newId)) = true := by
      obtain ⟨r, hr, hrn, hri⟩ := hdup
      exact List.any_eq_true.2 ⟨r, hr, by simp [hrn, hri]⟩
    have hmain : supabaseSignUp email (some uname) bio newId s
        = (false, { s with accounts := s.accounts ++ [⟨newId, email, ""⟩] }) := by
      simp only [supabaseSignUp, if_neg hu, profilesUpsert, hguard, if_pos]
    rw [hmain]
    refine ⟨rfl, rfl, ?_, ?_⟩
    · simp
    · simp only [List.any_eq_false]
      intro r hr
      simp only [beq_iff_eq]
      exact hfresh r hr

/-- Witness for C5's amended theorem at a concrete store containing a
profile named `alice` under a different account id. -/
theorem signUp_duplicate_username_behavior_witness :
    (("alice" : String) ≠ ""
      ∧ (localSignUp "a@b.c" (some "alice") none localLayerInit).currentUser
          = some ⟨"alice", some "a@b.c"⟩)
    ∧ ((∃ r ∈ [(⟨"u1", "alice", "", none⟩ : ProfileRow)], r.username = "alice" ∧ r.id ≠ "u2")
      ∧ (supabaseSignUp "b@c.d" (some "alice") none "u2"
          ⟨[], [⟨"u1", "alice", "", none⟩]⟩).1 = false) := by
  constructor
  · exact ⟨by decide, (signUp_duplicate_username_behavior.1 "a@b.c" none localLayerInit
      "alice" (by decide)).1⟩
  · refine ⟨⟨⟨"u1", "alice", "", none⟩, by simp, rfl, by decide⟩, ?_⟩
    exact (signUp_duplicate_username_behavior.2 "b@c.d" none
      ⟨[], [⟨"u1", "alice", "", none⟩]⟩ "alice" "u2" (by decide)
      ⟨⟨"u1", "alice", "", none⟩, by simp, rfl, by decide⟩
      (by intro r hr; simp at hr; simp [hr])).1

/-- C8 counterexample: with an empty backend and an empty cache, a
`getProfile` for the absent id `x` performs a backend query and — since
`_getProfile` caches only rows it actually found — a second `getProfile`
for the same id performs a backend query again, contradicting the
claim that a second lookup for the same id issues no backend query. -/
theorem getProfileCached_miss_queries_twice :
    (getProfileCached [] [] "x").2.2 = true
    ∧ (getProfileCached [] (getProfileCached [] [] "x").2.1 "x").2.2 = true :=
  ⟨rfl, rfl⟩

theorem filter_map_replace_none (rs : List ProfileRow) (newRow : ProfileRow) (i : String)
    (hall : ∀ r ∈ rs, r.id ≠ i) :
    (rs.map (fun r => if r.id == i then newRow else r)).filter (fun r => r.id == i)
      = [] := by
  induction rs with
  | nil => rfl
  | cons r rs ih =>
    have hr : (r.id == i) = false := by
      simpa using hall r (by simp)
    simp only [List.map_cons, hr, Bool.false_eq_true, if_false, List.filter_cons, hr]
    exact ih (fun r' hr' => hall r' (by simp [hr']))

theorem filter_map_replace_single (rs : List ProfileRow) (newRow : ProfileRow)
    (hnd : (rs.map (fun r => r.id)).Nodup)
    (hmem : rs.any (fun r => r.id == newRow.id) = true) :
    (rs.map (fun r => if r.id == newRow.id then newRow else r)).filter
        (fun r => r.id == newRow.id) = [newRow] := by
  induction rs with
  | nil => simp at hmem
  | cons r rs ih =>
    rw [List.map_cons, List.nodup_cons] at hnd
    by_cases hr : (r.id == newRow.id) = true
    · have hrid : r.id = newRow.id := beq_iff_eq.1 hr
      have hall : ∀ r' ∈ rs, r'.id ≠ newRow.id := by
        intro r' hm' hc
        exact hnd.1 (List.mem_map.2 ⟨r', hm', by rw [hc, hrid]⟩)
      simp only [List.map_cons, hr, if_true, List.filter_cons]
      have hnew : (newRow.id == newRow.id) = true := by simp
      simp only [hnew, if_true]
      rw [filter_map_replace_none rs newRow newRow.id hall]
    · have hr' : (r.id == newRow.id) = false := by simpa using hr
      have hmem' : rs.any (fun x => x.id == newRow.id) = true := by
        simpa [List.any_cons, hr'] using hmem
      simp only [List.map_cons, hr', Bool.false_eq_true, if_false, List.filter_cons, hr']
      exact ih hnd.2 hmem'

theorem filter_append_fresh (rs : List ProfileRow) (newRow : ProfileRow)
    (h : rs.any (fun r => r.id == newRow.id) = false) :
    (rs ++ [newRow]).filter (fun r => r.id == newRow.id) = [newRow] := by
  have hall : rs.filter (fun r => r.id == newRow.id) = [] := by
    rw [List.filter_eq_nil_iff]
    intro r hr
    have := List.any_eq_false.1 h r hr
    simpa using this
  rw [List.filter_append, hall]
  simp

theorem maybeSingleById_upsert (rows : List ProfileRow) (newRow : ProfileRow)
    (ps : List ProfileRow)
    (hnd : (rows.map (fun r => r.id)).Nodup)
    (h : profilesUpsert rows newRow = some ps) :
    maybeSingleById ps newRow.id = some newRow := by
  unfold profilesUpsert at h
  by_cases hg : rows.any (fun r => r.username == newRow.username && !(r.id == newRow.id)) = true
  · rw [if_pos hg] at h; exact absurd h (by simp)
  · rw [if_neg hg] at h
    by_cases he : rows.any (fun r => r.id == newRow.id) = true
    · rw [if_pos he] at h
      have hps : ps = rows.map (fun r => if r.id == newRow.id then newRow else r) :=
        (Option.some.injEq _ _ ▸ h).symm
      rw [hps]
      unfold maybeSingleById
      rw [filter_map_replace_single rows newRow hnd he]
    · rw [if_neg he] at h
      have hps : ps = rows ++ [newRow] := (Option.some.injEq _ _ ▸ h).symm
      rw [hps]
      unfold maybeSingleById
      rw [filter_append_fresh rows newRow (Bool.eq_false_iff.mpr he)]

/-- C8 amended: `_getProfile` serves a repeated lookup from the cache —
with no backend query — whenever the first lookup actually returned a
profile (a lookup that found nothing is not cached and will query
again), and a successful `updateProfile` deletes the caller's cache
entry, so the next `getProfile` for the caller's id re-queries the
backend and returns the updated row rather than the stale cached one. -/
theorem getProfileCached_cache_and_invalidation :
    (∀ (rows : List ProfileRow) (cache : ProfileCache) (i : String) (row : ProfileRow),
      (getProfileCached rows cache i).1 = some row →
      getProfileCached rows (getProfileCached rows cache i).2.1 i
        = (some row, (getProfileCached rows cache i).2.1, false))
    ∧ (∀ (rows : List ProfileRow) (cache : ProfileCache) (uid uemail uname : String)
        (bio : Option String),
        (rows.map (fun r => r.id)).Nodup →
        (supabaseUpdateProfile rows cache uid uemail uname bio).1 = true →
        (getProfileCached (supabaseUpdateProfile rows cache uid uemail uname bio).2.1
            (supabaseUpdateProfile rows cache uid uemail uname bio).2.2 uid).1
          = some ⟨uid, uname, jsOr bio "", some uemail⟩
        ∧ (getProfileCached (supabaseUpdateProfile rows cache uid uemail uname bio).2.1
            (supabaseUpdateProfile rows cache uid uemail uname bio).2.2 uid).2.2 = true) := by
  constructor
  · intro rows cache i row h1
    cases hl : lookupAssoc cache i with
    | some v =>
      have hfst : getProfileCached rows cache i = (some v, cache, false) := by
        simp [getProfileCached, hl]
      rw [hfst] at h1 ⊢
      have hv : v = row := by simpa using h1
      subst hv
      simp [getProfileCached, hl]
    | none =>
      cases hm : maybeSingleById rows i with
      | some r =>
        have hfst : getProfileCached rows cache i = (some r, setAssoc cache i r, true) := by
          simp [getProfileCached, hl, hm]
        rw [hfst] at h1 ⊢
        simp only at h1 ⊢
        have hrow : r = row := by simpa using h1
        subst hrow
        simp [getProfileCached, lookupAssoc_setAssoc_self]
      | none =>
        have hfst : getProfileCached rows cache i = (none, cache, true) := by
          simp [getProfileCached, hl, hm]
        rw [hfst] at h1
        exact absurd h1 (by simp)
  · intro rows cache uid uemail uname bio hnd hok
    cases hu : profilesUpsert rows ⟨uid, uname, jsOr bio "", some uemail⟩ with
    | none =>
      exfalso
      unfold supabaseUpdateProfile at hok
      rw [hu] at hok
      exact absurd hok (by simp)
    | some ps =>
      have hupd : supabaseUpdateProfile rows cache uid uemail uname bio
          = (true, ps, deleteAssoc cache uid) := by
        unfold supabaseUpdateProfile
        rw [hu]
      rw [hupd]
      simp only
      have hms : maybeSingleById ps uid = some ⟨uid, uname, jsOr bio "", some uemail⟩ :=
        maybeSingleById_upsert rows _ ps hnd hu
      simp [getProfileCached, lookupAssoc_deleteAssoc_self, hms]

/-- Witness for C8's amended theorem: a cached hit after a successful
first lookup, and a re-query returning the updated row after
`updateProfile`. -/
theorem getProfileCached_cache_and_invalidation_witness :
    ((getProfileCached [⟨"u1", "bob", "", none⟩] [] "u1").1 = some ⟨"u1", "bob", "", none⟩
      ∧ getProfileCached [⟨"u1", "bob", "", none⟩]
          (getProfileCached [⟨"u1", "bob", "", none⟩] [] "u1").2.1 "u1"
          = (some ⟨"u1", "bob", "", none⟩,
             (getProfileCached [⟨"u1", "bob", "", none⟩] [] "u1").2.1, false))
    ∧ (([(⟨"u1", "bob", "", none⟩ : ProfileRow)].map (fun r => r.id)).Nodup
      ∧ (supabaseUpdateProfile [⟨"u1", "bob", "", none⟩] [("u1", ⟨"u1", "bob", "", none⟩)]
          "u1" "e@x" "new" none).1 = true
      ∧ (getProfileCached
          (supabaseUpdateProfile [⟨"u1", "bob", "", none⟩] [("u1", ⟨"u1", "bob", "", none⟩)]
            "u1" "e@x" "new" none).2.1
          (supabaseUpdateProfile [⟨"u1", "bob", "", none⟩] [("u1", ⟨"u1", "bob", "", none⟩)]
            "u1" "e@x" "new" none).2.2 "u1").1 = some ⟨"u1", "new", "", some "e@x"⟩) := by
  constructor
  · exact ⟨by decide, getProfileCached_cache_and_invalidation.1
      [⟨"u1", "bob", "", none⟩] [] "u1" ⟨"u1", "bob", "", none⟩ (by decide)⟩
  · refine ⟨by decide, by decide, ?_⟩
    exact (getProfileCached_cache_and_invalidation.2
      [⟨"u1", "bob", "", none⟩] [("u1", ⟨"u1", "bob", "", none⟩)]
      "u1" "e@x" "new" none (by decide) (by decide)).1

theorem byIdList_aux (rows : List DRow) (m : List (String × DRow))
    (hdis : ∀ r ∈ rows, ∀ p ∈ m, p.1 ≠ r.id)
    (hnd : (rows.map (fun r => r.id)).Nodup) :
    rows.foldl (fun m r => setAssoc m r.id r) m = m ++ rows.map (fun r => (r.id, r)) := by
  induction rows generalizing m with
  | nil => simp
  | cons r rs ih =>
    rw [List.map_cons, List.nodup_cons] at hnd
    have habs : m.any (fun p => p.1 == r.id) = false := by
      rw [List.any_eq_false]
      intro p hp
      simpa using hdis r (by simp) p hp
    have hset : setAssoc m r.id r = m ++ [(r.id, r)] := by
      unfold setAssoc
      rw [if_neg (by simp [habs])]
    rw [List.foldl_cons, hset]
    rw [ih (m ++ [(r.id, r)]) ?_ hnd.2]
    · simp
    · intro r' hr' p hp
      rcases List.mem_append.1 hp with hpm | hps
      · exact hdis r' (by simp [hr']) p hpm
      · have hpv : p = (r.id, r) := by simpa using hps
        subst hpv
        intro hc
        exact hnd.1 (List.mem_map.2 ⟨r', hr', hc.symm⟩)

theorem effRows_eq_self (rows : List DRow)
    (hnd : (rows.map (fun r => r.id)).Nodup) : effRows rows = rows := by
  unfold effRows byIdList
  rw [byIdList_aux rows [] (by simp) hnd]
  simp [List.map_map]
  exact List.map_id rows

theorem insertBy_perm {α : Type} (le : α → α → Bool) (x : α) (l : List α) :
    (insertBy le x l).Perm (x :: l) := by
  induction l with
  | nil => exact List.Perm.refl _
  | cons y ys ih =>
    unfold insertBy
    by_cases h : le x y = true
    · rw [if_pos h]
    · rw [if_neg h]
      exact (ih.cons y).trans (List.Perm.swap x y ys)

theorem sortBy_perm {α : Type} (le : α → α → Bool) (l : List α) :
    (sortBy le l).Perm l := by
  induction l with
  | nil => exact List.Perm.refl _
  | cons x xs ih =>
    unfold sortBy at ih ⊢
    rw [List.foldr_cons]
    exact (insertBy_perm le x _).trans (ih.cons x)

theorem mem_insertBy {α : Type} (le : α → α → Bool) (x a : α) (l : List α) :
    a ∈ insertBy le x l ↔ a = x ∨ a ∈ l :=
  ⟨fun h => by simpa using (insertBy_perm le x l).mem_iff.1 h,
   fun h => (insertBy_perm le x l).mem_iff.2 (by simpa using h)⟩

theorem insertBy_pairwise {α : Type} (le : α → α → Bool)
    (htrans : ∀ a b c, le a b = true → le b c = true → le a c = true)
    (htot : ∀ a b, le a b = true ∨ le b a = true)
    (x : α) (l : List α) (h : l.Pairwise (fun a b => le a b = true)) :
    (insertBy le x l).Pairwise (fun a b => le a b = true) := by
  induction l with
  | nil => simp [insertBy]
  | cons y ys ih =>
    rw [List.pairwise_cons] at h
    unfold insertBy
    by_cases hxy : le x y = true
    · rw [if_pos hxy]
      refine List.Pairwise.cons ?_ (List.Pairwise.cons h.1 h.2)
      intro z hz
      rcases List.mem_cons.1 hz with rfl | hz'
      · exact hxy
      · exact htrans x y z hxy (h.1 z hz')
    · rw [if_neg hxy]
      have hyx : le y x = true := (htot x y).resolve_left hxy
      refine List.Pairwise.cons ?_ (ih h.2)
      intro z hz
      rcases (mem_insertBy le x z ys).1 hz with rfl | hz'
      · exact hyx
      · exact h.1 z hz'

theorem sortBy_pairwise {α : Type} (le : α → α → Bool)
    (htrans : ∀ a b c, le a b = true → le b c = true → le a c = true)
    (htot : ∀ a b, le a b = true ∨ le b a = true)
    (l : List α) : (sortBy le l).Pairwise (fun a b => le a b = true) := by
  induction l with
  | nil => simp [sortBy]
  | cons x xs ih =>
    unfold sortBy at ih ⊢
    rw [List.foldr_cons]
    exact insertBy_pairwise le htrans htot x _ ih

theorem buildNode_createdAt (rows : List DRow) (fuel : Nat) (r : DRow) :
    (buildNode rows fuel r).createdAt = r.createdAt := by
  cases fuel <;> rfl

/-- C2 counterexample: in the batch `c1` (top-level), `c2` (reply to
`c1`), `c3` (reply to the reply `c2`), the builder pushes `c3` onto the
replies of its immediate parent `c2` — not onto the top-level comment
`c1` — and the materialised tree for the post has a reply whose own
reply list is nonempty, i.e. more than one nesting level.  This refutes
the claimed single-level flattening. -/
theorem replyTree_nests_beyond_one_level :
    repliesIn (effRows [⟨"c1", "p1", "u1", "a", 1, [], [], false, none⟩,
        ⟨"c2", "p1", "u1", "b", 2, [], [], false, some "c1"⟩,
        ⟨"c3", "p1", "u1", "c", 3, [], [], false, some "c2"⟩]) "c2"
      = [⟨"c3", "p1", "u1", "c", 3, [], [], false, some "c2"⟩]
    ∧ repliesIn (effRows [⟨"c1", "p1", "u1", "a", 1, [], [], false, none⟩,
        ⟨"c2", "p1", "u1", "b", 2, [], [], false, some "c1"⟩,
        ⟨"c3", "p1", "u1", "c", 3, [], [], false, some "c2"⟩]) "c1"
      = [⟨"c2", "p1", "u1", "b", 2, [], [], false, some "c1"⟩]
    ∧ ((commentsForPost [⟨"c1", "p1", "u1", "a", 1, [], [], false, none⟩,
          ⟨"c2", "p1", "u1", "b", 2, [], [], false, some "c1"⟩,
          ⟨"c3", "p1", "u1", "c", 3, [], [], false, some "c2"⟩] "p1").map
        (fun n => n.replies.map (fun m => m.replies.length))) = [[1]] := by
  refine ⟨by decide, by decide, ?_⟩
  rfl

/-- C2 amended: the builder attaches a row to the node of its immediate
parent whenever the parent reference resolves in the batch — even when
that parent is itself a reply — and to no other node, and such a row is
not placed in the post's top-level comment list; the resulting tree can
therefore nest beyond one level. -/
theorem replyTree_attaches_to_immediate_parent
    (rows : List DRow) (r : DRow) (p : String)
    (hnd : (rows.map (fun x => x.id)).Nodup)
    (hr : r ∈ rows) (hp : r.parentId = some p)
    (hres : rows.any (fun x => x.id == p) = true) :
    r ∈ repliesIn (effRows rows) p
    ∧ (∀ q, q ≠ p → r ∉ repliesIn (effRows rows) q)
    ∧ r ∉ topIn (effRows rows) r.postId := by
  rw [effRows_eq_self rows hnd]
  refine ⟨?_, ?_, ?_⟩
  · exact List.mem_filter.2 ⟨hr, by simp [repliesIn, hp]⟩
  · intro q hq hc
    have h2 := (List.mem_filter.1 hc).2
    rw [hp] at h2
    simp at h2
    exact hq h2.symm
  · intro hc
    have h2 := (List.mem_filter.1 hc).2
    have hrp : resolvesParent rows r = true := by
      unfold resolvesParent
      rw [hp]
      exact hres
    rw [hrp] at h2
    simp at h2

/-- Witness for C2's amended theorem at the three-row batch of the
counterexample, with `r` the reply-to-a-reply `c3`. -/
theorem replyTree_attaches_to_immediate_parent_witness :
    (([⟨"c1", "p1", "u1", "a", 1, [], [], false, none⟩,
        ⟨"c2", "p1", "u1", "b", 2, [], [], false, some "c1"⟩,
        (⟨"c3", "p1", "u1", "c", 3, [], [], false, some "c2"⟩ : DRow)].map
          (fun x => x.id)).Nodup)
    ∧ (⟨"c3", "p1", "u1", "c", 3, [], [], false, some "c2"⟩ : DRow)
        ∈ repliesIn (effRows [⟨"c1", "p1", "u1", "a", 1, [], [], false, none⟩,
            ⟨"c2", "p1", "u1", "b", 2, [], [], false, some "c1"⟩,
            ⟨"c3", "p1", "u1", "c", 3, [], [], false, some "c2"⟩]) "c2" := by
  refine ⟨by decide, ?_⟩
  exact (replyTree_attaches_to_immediate_parent
    [⟨"c1", "p1", "u1", "a", 1, [], [], false, none⟩,
      ⟨"c2", "p1", "u1", "b", 2, [], [], false, some "c1"⟩,
      ⟨"c3", "p1", "u1", "c", 3, [], [], false, some "c2"⟩]
    ⟨"c3", "p1", "u1", "c", 3, [], [], false, some "c2"⟩ "c2"
    (by decide) (by simp) rfl (by decide)).1

theorem takeWhile_append_all {α : Type} (p : α → Bool) (l₁ l₂ : List α)
    (h : ∀ c ∈ l₁, p c = true) :
    (l₁ ++ l₂).takeWhile p = l₁ ++ l₂.takeWhile p := by
  induction l₁ with
  | nil => simp
  | cons c cs ih =>
    have hc : p c = true := h c (by simp)
    simp only [List.cons_append, List.takeWhile_cons, hc, if_true]
    rw [ih (fun c' hc' => h c' (by simp [hc']))]

theorem parseReplyTag_roundtrip (cid content : String)
    (hcid : cid ≠ "") (hbr : ']' ∉ cid.data)
    (hws : ∀ c, content.data.head? = some c → isWS c = false) :
    parseReplyTag (storedReplyContent cid content).data
      = some (cid.data, content.data) := by
  have hdata : (storedReplyContent cid content).data
      = replyTagChars ++ (cid.data ++ (']' :: ' ' :: content.data)) := by
    simp only [storedReplyContent, String.data_append]
    simp [replyTagChars, List.append_assoc]
  rw [parseReplyTag, hdata]
  have htake : (replyTagChars ++ (cid.data ++ (']' :: ' ' :: content.data))).take 7
      = replyTagChars := List.take_left' rfl
  rw [htake, if_pos rfl]
  have hdrop : (replyTagChars ++ (cid.data ++ (']' :: ' ' :: content.data))).drop 7
      = cid.data ++ (']' :: ' ' :: content.data) := List.drop_left' rfl
  rw [hdrop]
  have hcidall : ∀ c ∈ cid.data, (!(c == ']')) = true := by
    intro c hc
    simp only [Bool.not_eq_true', beq_eq_false_iff_ne, ne_eq]
    intro hx
    exact hbr (hx ▸ hc)
  have htw : (cid.data ++ (']' :: ' ' :: content.data)).takeWhile (fun c => !(c == ']'))
      = cid.data := by
    rw [takeWhile_append_all _ _ _ hcidall]
    simp [List.takeWhile_cons]
  have hdrop2 : (cid.data ++ (']' :: ' ' :: content.data)).drop cid.data.length
      = ']' :: ' ' :: content.data := List.drop_left' rfl
  have hne : cid.data.isEmpty = false := by
    cases cid with
    | mk d =>
      cases d with
      | nil => exact absurd rfl hcid
      | cons a l => rfl
  have hdw : (' ' :: content.data).dropWhile isWS = content.data := by
    have hsp : isWS ' ' = true := rfl
    rw [List.dropWhile_cons, if_pos hsp]
    cases hk : content.data with
    | nil => rfl
    | cons c cs =>
      have hcws : isWS c = false := hws c (by rw [hk]; rfl)
      rw [List.dropWhile_cons, if_neg (by simp [hcws])]
  simp only [htw, hdrop2, hne, Bool.false_eq_true, if_false, hdw]

/-- C3 counterexample: `addReply` stores `"[reply:c1] " ++ content`; for
`content = " hi"` (leading whitespace) the decoder's `\s*` strips the
separator space *and* the content's own leading whitespace, so the
decoded node carries `"hi"`, not the original content `" hi"` — the
claimed round-trip fails. -/
theorem addReply_roundtrip_drops_leading_whitespace :
    (decodeCommentRow (addReplyRow "p1" "c1" "u1" " hi" "r1" 5)).content = "hi"
    ∧ (" hi" : String) ≠ "hi" := by
  exact ⟨by decide, by decide⟩

/-- C3 amended: the `addReply`/`listPosts` round-trip holds provided the
parent comment id is nonempty and contains no `]` and the reply content
has no leading whitespace: both the explicit-`parent_id` row and the
legacy prefix-only row decode to a node carrying the original content
with the marker stripped and the parent reference `cid`; a decoded row
whose parent resolves in the batch is placed in that comment's reply
list (and not in the post's top-level list), and a row whose parent
reference does not resolve is appended to the post's top-level comment
list instead. -/
theorem addReply_roundtrip (cid content : String)
    (hcid : cid ≠ "") (hbr : ']' ∉ cid.data)
    (hws : ∀ c, content.data.head? = some c → isWS c = false) :
    (∀ postId userId rid now,
      decodeCommentRow (addReplyRow postId cid userId content rid now)
        = ⟨rid, postId, userId, content, now, [], [], false, some cid⟩
      ∧ decodeCommentRow (addReplyRowLegacy postId cid userId content rid now)
        = ⟨rid, postId, userId, content, now, [], [], false, some cid⟩)
    ∧ (∀ (rows : List DRow) (r : DRow),
        (rows.map (fun x => x.id)).Nodup →
        r ∈ rows → r.parentId = some cid → rows.any (fun x => x.id == cid) = true →
        r ∈ repliesIn (effRows rows) cid ∧ r ∉ topIn (effRows rows) r.postId)
    ∧ (∀ (rows : List DRow) (r : DRow),
        (rows.map (fun x => x.id)).Nodup →
        r ∈ rows → resolvesParent rows r = false →
        r ∈ topIn (effRows rows) r.postId) := by
  have hparse := parseReplyTag_roundtrip cid content hcid hbr hws
  refine ⟨?_, ?_, ?_⟩
  · intro postId userId rid now
    constructor
    · simp [decodeCommentRow, addReplyRow, hparse, hcid]
    · simp [decodeCommentRow, addReplyRowLegacy, hparse]
  · intro rows r hnd hr hp hres
    rw [effRows_eq_self rows hnd]
    constructor
    · exact List.mem_filter.2 ⟨hr, by simp [hp]⟩
    · intro hc
      have h2 := (List.mem_filter.1 hc).2
      have hrp : resolvesParent rows r = true := by
        unfold resolvesParent
        rw [hp]
        exact hres
      rw [hrp] at h2
      simp at h2
  · intro rows r hnd hr hnores
    rw [effRows_eq_self rows hnd]
    exact List.mem_filter.2 ⟨hr, by simp [hnores]⟩

/-- Witness for C3's amended theorem at `cid = "c1"`, `content = "hi"`. -/
theorem addReply_roundtrip_witness :
    (("c1" : String) ≠ "" ∧ ']' ∉ "c1".data
      ∧ (∀ c, "hi".data.head? = some c → isWS c = false))
    ∧ decodeCommentRow (addReplyRow "p1" "c1" "u1" "hi" "r9" 7)
        = ⟨"r9", "p1", "u1", "hi", 7, [], [], false, some "c1"⟩ := by
  refine ⟨⟨by decide, by decide, by intro c hc; cases hc; rfl⟩, ?_⟩
  exact ((addReply_roundtrip "c1" "hi" (by decide) (by decide)
    (by intro c hc; cases hc; rfl)).1 "p1" "u1" "r9" 7).1

/-- C7: `listPosts` returns a bounded page of at most 50 posts ordered
newest first (creation timestamps descending), each post carrying the
comment tree reconstructed by the builder, and within a post the
top-level comment list is ordered by ascending creation timestamp, as
delivered by the backend query. -/
theorem supabaseListPosts_page_ordering (postRows : List PostRow) (commentRows : List CRow)
    (hnd : (commentRows.map (fun c => c.id)).Nodup) :
    (supabaseListPosts postRows commentRows).length ≤ 50
    ∧ (supabaseListPosts postRows commentRows).Pairwise
        (fun a b => b.createdAt ≤ a.createdAt)
    ∧ (∀ p ∈ supabaseListPosts postRows commentRows,
        p.comments.Pairwise (fun a b => a.createdAt ≤ b.createdAt)) := by
  have hdtrans : ∀ a b c : PostRow, descByCreated a b = true → descByCreated b c = true →
      descByCreated a c = true := by
    intro a b c h1 h2
    simp only [descByCreated, Nat.ble_eq] at h1 h2 ⊢
    exact le_trans h2 h1
  have hdtot : ∀ a b : PostRow, descByCreated a b = true ∨ descByCreated b a = true := by
    intro a b
    simp only [descByCreated, Nat.ble_eq]
    exact le_total _ _
  have hatrans : ∀ a b c : CRow, ascByCreated a b = true → ascByCreated b c = true →
      ascByCreated a c = true := by
    intro a b c h1 h2
    simp only [ascByCreated, Nat.ble_eq] at h1 h2 ⊢
    exact le_trans h1 h2
  have hatot : ∀ a b : CRow, ascByCreated a b = true ∨ ascByCreated b a = true := by
    intro a b
    simp only [ascByCreated, Nat.ble_eq]
    exact le_total _ _
  have hpostsPW : ((sortBy descByCreated postRows).take 50).Pairwise
      (fun a b => b.created_at ≤ a.created_at) :=
    (List.Pairwise.sublist (List.take_sublist _ _)
      (sortBy_pairwise descByCreated hdtrans hdtot postRows)).imp
      (fun h => Nat.le_of_ble_eq_true h)
  simp only [supabaseListPosts]
  refine ⟨?_, ?_, ?_⟩
  · rw [List.length_map]
    exact List.length_take_le _ _
  · exact List.pairwise_map.2 hpostsPW
  · intro p hp
    obtain ⟨q, hq, rfl⟩ := List.mem_map.1 hp
    have h1 : (((commentRows.filter (fun c =>
        (((sortBy descByCreated postRows).take 50).map (fun x => x.id)).contains
          c.post_id)).map (fun c => c.id))).Nodup :=
      hnd.sublist ((commentRows.filter_sublist).map _)
    have h2 : (((sortBy ascByCreated (commentRows.filter (fun c =>
        (((sortBy descByCreated postRows).take 50).map (fun x => x.id)).contains
          c.post_id))).map (fun c => c.id))).Nodup :=
      ((sortBy_perm ascByCreated _).map _).nodup_iff.2 h1
    have h3 : ((((sortBy ascByCreated (commentRows.filter (fun c =>
        (((sortBy descByCreated postRows).take 50).map (fun x => x.id)).contains
          c.post_id))).map decodeCommentRow).map (fun d => d.id))).Nodup := by
      rw [List.map_map]
      exact h2
    have heff : effRows ((sortBy ascByCreated (commentRows.filter (fun c =>
        (((sortBy descByCreated postRows).take 50).map (fun x => x.id)).contains
          c.post_id))).map decodeCommentRow)
        = (sortBy ascByCreated (commentRows.filter (fun c =>
        (((sortBy descByCreated postRows).take 50).map (fun x => x.id)).contains
          c.post_id))).map decodeCommentRow :=
      effRows_eq_self _ h3
    have hasc : (sortBy ascByCreated (commentRows.filter (fun c =>
        (((sortBy descByCreated postRows).take 50).map (fun x => x.id)).contains
          c.post_id))).Pairwise (fun a b => a.created_at ≤ b.created_at) :=
      (sortBy_pairwise ascByCreated hatrans hatot _).imp
        (fun h => Nat.le_of_ble_eq_true h)
    have hdrows : ((sortBy ascByCreated (commentRows.filter (fun c =>
        (((sortBy descByCreated postRows).take 50).map (fun x => x.id)).contains
          c.post_id))).map decodeCommentRow).Pairwise
        (fun a b => a.createdAt ≤ b.createdAt) :=
      List.pairwise_map.2 hasc
    simp only [heff]
    have htop : (topIn ((sortBy ascByCreated (commentRows.filter (fun c =>
        (((sortBy descByCreated postRows).take 50).map (fun x => x.id)).contains
          c.post_id))).map decodeCommentRow) q.id).Pairwise
        (fun a b => a.createdAt ≤ b.createdAt) :=
      List.Pairwise.sublist (List.filter_sublist _) hdrows
    exact List.pairwise_map.2 (htop.imp (fun {a b} h => by
      rw [buildNode_createdAt, buildNode_createdAt]
      exact h))

/-- Witness for C7 at a one-post, one-comment store. -/
theorem supabaseListPosts_page_ordering_witness :
    (([(⟨"c1", "p1", "u1", "x", 1, [], [], false, none⟩ : CRow)].map (fun c => c.id)).Nodup)
    ∧ (supabaseListPosts [⟨"p1", "u1", "cap", 10, [], [], [], [], false⟩]
        [⟨"c1", "p1", "u1", "x", 1, [], [], false, none⟩]).length ≤ 50 := by
  refine ⟨by decide, ?_⟩
  exact (supabaseListPosts_page_ordering [⟨"p1", "u1", "cap", 10, [], [], [], [], false⟩]
    [⟨"c1", "p1", "u1", "x", 1, [], [], false, none⟩] (by decide)).1
